import Mathlib

/-!
Verification of the `CodeInfo` record codec from
`crates/bytecode/src/eof/code_info.rs`: the EOF types-section entry holding
`inputs`, `outputs` and `max_stack_size`, with its encoder, decoder and
validator.  Bytes are modelled as natural numbers below 256 and byte slices
as lists of such numbers; machine-integer operations carry explicit
`% 2 ^ w` reductions where width matters.
-/

/-- Modelled from the spec: the shared decode-error type (`EofDecodeError`,
defined outside the sources at hand) exposes at minimum a truncated-input
variant (`MissingInput`, raised by the byte-consumption collaborator) and an
invalid-record variant (`InvalidCodeInfo`, raised by `validate`). -/
inductive EofDecodeError where
  | MissingInput
  | InvalidCodeInfo
deriving DecidableEq, Repr

/-- Modelled from the spec: the byte-consumption primitive that, given a
slice, returns the next byte together with the remaining slice, or fails
with the truncation error when no byte remains. -/
def consume_u8 (input : List Nat) : Except EofDecodeError (List Nat × Nat) :=
  match input with
  | [] => .error .MissingInput
  | b :: rest => .ok (rest, b)

/-- Modelled from the spec: the byte-consumption primitive that, given a
slice, returns the next two bytes as a big-endian unsigned integer together
with the remaining slice, or fails with the truncation error when fewer than
two bytes remain. -/
def consume_u16 (input : List Nat) : Except EofDecodeError (List Nat × Nat) :=
  match input with
  | b1 :: b2 :: rest => .ok (rest, b1 * 256 + b2)
  | _ => .error .MissingInput

/-- Non returning function has a output `0x80` (`EOF_NON_RETURNING_FUNCTION`). -/
def EOF_NON_RETURNING_FUNCTION : Nat := 0x80

/-- Two's-complement wrap-around of an integer into the signed 32-bit range,
the semantics of arithmetic carried out in Rust's `i32`. -/
def wrap32 (z : Int) : Int := (z + 2 ^ 31) % 2 ^ 32 - 2 ^ 31

/-- `Vec::push`: append one byte at the end of the buffer. -/
def vec_push (buffer : List Nat) (b : Nat) : List Nat := buffer ++ [b]

/-- `Vec::extend_from_slice`: append a slice at the end of the buffer. -/
def vec_extend_from_slice (buffer s : List Nat) : List Nat := buffer ++ s

/-- `u16::to_be_bytes`: the two big-endian bytes of a 16-bit value, high
byte first. -/
def u16_to_be_bytes (v : Nat) : List Nat := [v / 256 % 256, v % 256]

/-- Types section entry that contains stack information for the matching
code section (`CodeInfo` in `code_info.rs`): `inputs` is a `u8` in
`0x00..=0x7F`, `outputs` a `u8` in `0x00..=0x80` (with `0x80` the
non-returning sentinel), `max_stack_size` a `u16` in `0x0000..=0x03FF`. -/
structure CodeInfo where
  inputs : Nat
  outputs : Nat
  max_stack_size : Nat
deriving DecidableEq, Repr

namespace CodeInfo

/-- `CodeInfo::new`: plain constructor, no validation. -/
def new (inputs outputs max_stack_size : Nat) : CodeInfo :=
  { inputs := inputs, outputs := outputs, max_stack_size := max_stack_size }

/-- `CodeInfo::is_non_returning`: true iff the section is non-returning. -/
def is_non_returning (c : CodeInfo) : Bool :=
  c.outputs == EOF_NON_RETURNING_FUNCTION

/-- `CodeInfo::io_diff`: `self.outputs as i32 - self.inputs as i32`, the
subtraction carried out at 32-bit signed width. -/
def io_diff (c : CodeInfo) : Int :=
  wrap32 ((c.outputs : Int) - (c.inputs : Int))

/-- `CodeInfo::encode`: push `inputs`, push `outputs`, then extend with the
big-endian bytes of `max_stack_size`. -/
def encode (c : CodeInfo) (buffer : List Nat) : List Nat :=
  vec_extend_from_slice (vec_push (vec_push buffer c.inputs) c.outputs)
    (u16_to_be_bytes c.max_stack_size)

/-- `CodeInfo::validate`: reject when `inputs > 0x7f`, `outputs > 0x80`,
`max_stack_size > 0x03FF`, or `inputs > max_stack_size`. -/
def validate (c : CodeInfo) : Except EofDecodeError Unit :=
  if c.inputs > 0x7f ∨ c.outputs > 0x80 ∨ c.max_stack_size > 0x03FF then
    .error .InvalidCodeInfo
  else if c.inputs > c.max_stack_size then
    .error .InvalidCodeInfo
  else
    .ok ()

/-- `CodeInfo::decode`: consume `inputs`, `outputs` and a big-endian
`max_stack_size`, validate the assembled section, and return it with the
remaining input. -/
def decode (input : List Nat) : Except EofDecodeError (CodeInfo × List Nat) := do
  let (input, inputs) ← consume_u8 input
  let (input, outputs) ← consume_u8 input
  let (input, max_stack_size) ← consume_u16 input
  let s : CodeInfo := { inputs := inputs, outputs := outputs, max_stack_size := max_stack_size }
  let _ ← s.validate
  pure (s, input)

end CodeInfo

/-- The four record invariants of the data model, as one proposition. -/
def CodeInfoInvariants (c : CodeInfo) : Prop :=
  c.inputs ≤ 0x7F ∧ c.outputs ≤ 0x80 ∧ c.max_stack_size ≤ 0x03FF ∧
    c.inputs ≤ c.max_stack_size

instance (c : CodeInfo) : Decidable (CodeInfoInvariants c) := by
  unfold CodeInfoInvariants; infer_instance

lemma validate_ok_iff (c : CodeInfo) :
    c.validate = .ok () ↔ CodeInfoInvariants c := by
  obtain ⟨i, o, m⟩ := c
  simp only [CodeInfo.validate, CodeInfoInvariants]
  split
  · constructor
    · intro h; cases h
    · intro h; omega
  · split
    · constructor
      · intro h; cases h
      · intro h; omega
    · constructor
      · intro _; omega
      · intro _; rfl

lemma validate_error_of_not (c : CodeInfo) (h : ¬ CodeInfoInvariants c) :
    c.validate = .error .InvalidCodeInfo := by
  obtain ⟨i, o, m⟩ := c
  simp only [CodeInfoInvariants] at h
  simp only [CodeInfo.validate]
  split
  · rfl
  · split
    · rfl
    · exfalso; apply h; omega

lemma decode_cons (b0 b1 b2 b3 : Nat) (rest : List Nat) :
    CodeInfo.decode (b0 :: b1 :: b2 :: b3 :: rest) =
      (CodeInfo.mk b0 b1 (b2 * 256 + b3)).validate.map
        (fun _ => (CodeInfo.mk b0 b1 (b2 * 256 + b3), rest)) := by
  rcases hv : (CodeInfo.mk b0 b1 (b2 * 256 + b3)).validate with e | u
  · simp [CodeInfo.decode, consume_u8, consume_u16, hv, Except.map, bind, Except.bind]
  · simp [CodeInfo.decode, consume_u8, consume_u16, hv, Except.map, bind, Except.bind,
      pure, Except.pure]

/-- Claim C1: `validate` returns success exactly when all four invariants
hold (`inputs ≤ 0x7F`, `outputs ≤ 0x80`, `max_stack_size ≤ 0x03FF`, and
`inputs ≤ max_stack_size`); on every `CodeInfo` the result is either success
or the single invalid-record error kind, so any record violating an
invariant gets `InvalidCodeInfo` and any record satisfying all four
(including the boundary `inputs = 0x7F`, `outputs = 0x80`,
`max_stack_size = 0x03FF`) gets success. -/
theorem C1_validate_ok_iff_invariants (c : CodeInfo) :
    (c.validate = .ok () ↔
      (c.inputs ≤ 0x7F ∧ c.outputs ≤ 0x80 ∧ c.max_stack_size ≤ 0x03FF ∧
        c.inputs ≤ c.max_stack_size)) ∧
    (c.validate = .ok () ∨ c.validate = .error .InvalidCodeInfo) := by
  refine ⟨validate_ok_iff c, ?_⟩
  by_cases h : CodeInfoInvariants c
  · exact Or.inl ((validate_ok_iff c).mpr h)
  · exact Or.inr (validate_error_of_not c h)

/-- Claim C5: `encode` appends exactly 4 bytes to the end of any buffer, in
the fixed order `inputs`, `outputs`, then `max_stack_size` as two big-endian
bytes, with no validation and no failure mode; in particular
`CodeInfo {inputs := 0, outputs := 0, max_stack_size := 0}` encoded into an
empty buffer yields `[0x00, 0x00, 0x00, 0x00]`. -/
theorem C5_encode_appends_four_bytes (c : CodeInfo) (buffer : List Nat) :
    c.encode buffer =
      buffer ++ [c.inputs, c.outputs, c.max_stack_size / 256 % 256,
        c.max_stack_size % 256] ∧
    (c.encode buffer).length = buffer.length + 4 ∧
    (CodeInfo.mk 0 0 0).encode [] = [0x00, 0x00, 0x00, 0x00] := by
  refine ⟨?_, ?_, rfl⟩ <;>
    simp [CodeInfo.encode, vec_push, vec_extend_from_slice, u16_to_be_bytes]

/-- Claim C8: `is_non_returning` returns `true` exactly when the `outputs`
field equals the sentinel `0x80`; as a pure function of the record it has no
side effects. -/
theorem C8_is_non_returning_iff (c : CodeInfo) :
    c.is_non_returning = true ↔ c.outputs = 0x80 := by
  simp [CodeInfo.is_non_returning, EOF_NON_RETURNING_FUNCTION]

/-- Claim C3: decoding any slice of fewer than 4 bytes fails with the
truncation error of the byte-consumption collaborator (`MissingInput`),
propagated unchanged, and no `CodeInfo` is produced. -/
theorem C3_decode_truncated (b : List Nat) (h : b.length < 4) :
    CodeInfo.decode b = .error .MissingInput := by
  match b with
  | [] => rfl
  | [a] => rfl
  | [a, b1] => rfl
  | [a, b1, c] => rfl
  | a :: b1 :: c :: d :: rest => simp at h; omega

/-- Witness for C3 at the concrete 3-byte slice `[1, 2, 3]`. -/
theorem C3_decode_truncated_witness :
    ([1, 2, 3] : List Nat).length < 4 ∧
    CodeInfo.decode [1, 2, 3] = .error .MissingInput :=
  ⟨by decide, C3_decode_truncated [1, 2, 3] (by decide)⟩

/-- Claim C4: on an input of length ≥ 4 whose first 4 bytes parse (inputs,
outputs, big-endian max_stack_size) into a record passing `validate`,
`decode` succeeds with that record and exactly the suffix of the input from
offset 4, whose length is the input length minus 4. -/
theorem C4_decode_valid_record (b0 b1 b2 b3 : Nat) (rest : List Nat)
    (h : (CodeInfo.mk b0 b1 (b2 * 256 + b3)).validate = .ok ()) :
    CodeInfo.decode (b0 :: b1 :: b2 :: b3 :: rest) =
      .ok (CodeInfo.mk b0 b1 (b2 * 256 + b3), rest) ∧
    rest.length = (b0 :: b1 :: b2 :: b3 :: rest).length - 4 := by
  refine ⟨?_, by simp⟩
  rw [decode_cons, h]
  rfl

/-- Witness for C4: a buffer holding two consecutive valid records decodes
to the first record plus a 4-byte remainder, which in turn decodes to the
second record and an empty remainder. -/
theorem C4_decode_valid_record_witness :
    CodeInfo.decode [1, 2, 0, 3, 0, 0x80, 1, 0] =
      .ok (CodeInfo.mk 1 2 3, [0, 0x80, 1, 0]) ∧
    CodeInfo.decode [0, 0x80, 1, 0] = .ok (CodeInfo.mk 0 0x80 256, []) := by
  have h1 := C4_decode_valid_record 1 2 0 3 [0, 0x80, 1, 0] (by rfl)
  have h2 := C4_decode_valid_record 0 0x80 1 0 [] (by rfl)
  exact ⟨h1.1, h2.1⟩

/-- Claim C6: on an input of length ≥ 4 whose first 4 bytes parse into a
candidate record violating any of the four invariants, `decode` returns the
invalid-record error raised by `validate` and exposes no `CodeInfo`. -/
theorem C6_decode_invalid_record (b0 b1 b2 b3 : Nat) (rest : List Nat)
    (h : ¬ (b0 ≤ 0x7F ∧ b1 ≤ 0x80 ∧ b2 * 256 + b3 ≤ 0x03FF ∧
      b0 ≤ b2 * 256 + b3)) :
    CodeInfo.decode (b0 :: b1 :: b2 :: b3 :: rest) =
      .error .InvalidCodeInfo := by
  rw [decode_cons,
    validate_error_of_not (CodeInfo.mk b0 b1 (b2 * 256 + b3)) h]
  rfl

/-- Witness for C6 at the concrete slice `[0x80, 0, 0, 0]`, whose candidate
record has `inputs = 0x80 > 0x7F`. -/
theorem C6_decode_invalid_record_witness :
    CodeInfo.decode [0x80, 0, 0, 0] = .error .InvalidCodeInfo :=
  C6_decode_invalid_record 0x80 0 0 0 [] (by decide)

/-- Claim C2: for every `CodeInfo` that passes `validate`, encoding it into
an empty buffer and decoding the result succeeds and returns the record
itself together with an empty remaining slice. -/
theorem C2_encode_decode_roundtrip (c : CodeInfo) (h : c.validate = .ok ()) :
    CodeInfo.decode (c.encode []) = .ok (c, []) := by
  obtain ⟨i, o, m⟩ := c
  obtain ⟨h1, h2, h3, h4⟩ := (validate_ok_iff _).mp h
  have he : CodeInfo.encode ⟨i, o, m⟩ [] = [i, o, m / 256 % 256, m % 256] := by
    simp [CodeInfo.encode, vec_push, vec_extend_from_slice, u16_to_be_bytes]
  have hm : m / 256 % 256 * 256 + m % 256 = m := by
    simp only [CodeInfoInvariants] at h3
    omega
  rw [he, decode_cons, hm, h]
  rfl

/-- Witness for C2 at the concrete record `⟨1, 2, 3⟩`. -/
theorem C2_encode_decode_roundtrip_witness :
    (CodeInfo.mk 1 2 3).validate = .ok () ∧
    CodeInfo.decode ((CodeInfo.mk 1 2 3).encode []) =
      .ok (CodeInfo.mk 1 2 3, []) := by
  have hv : (CodeInfo.mk 1 2 3).validate = .ok () := by rfl
  exact ⟨hv, C2_encode_decode_roundtrip (CodeInfo.mk 1 2 3) hv⟩

/-- Claim C7: for every `CodeInfo` with `u8` fields, `io_diff` is the exact
signed difference `outputs - inputs`, and that difference lies strictly
inside the signed 32-bit range, so the 32-bit subtraction never wraps. -/
theorem C7_io_diff_exact (c : CodeInfo) (h1 : c.inputs < 256)
    (h2 : c.outputs < 256) :
    c.io_diff = (c.outputs : Int) - (c.inputs : Int) ∧
    -(2 ^ 31) ≤ (c.outputs : Int) - (c.inputs : Int) ∧
    (c.outputs : Int) - (c.inputs : Int) < 2 ^ 31 := by
  unfold CodeInfo.io_diff wrap32
  omega

/-- Witness for C7 at the concrete record `⟨2, 0x80, 5⟩`, whose `io_diff`
is 126. -/
theorem C7_io_diff_exact_witness :
    (CodeInfo.mk 2 0x80 5).inputs < 256 ∧
    (CodeInfo.mk 2 0x80 5).outputs < 256 ∧
    (CodeInfo.mk 2 0x80 5).io_diff = 126 := by
  have h := C7_io_diff_exact (CodeInfo.mk 2 0x80 5) (by decide) (by decide)
  exact ⟨by decide, by decide, h.1.trans (by decide)⟩

/-- Claim C9: whenever `decode` succeeds on a byte slice, the slice is
exactly the encoding of the returned record followed by the returned
remainder, so `encode` and `decode` are mutually inverse on successfully
decodable inputs. -/
theorem C9_decode_then_encode (b : List Nat) (x : CodeInfo) (rest : List Nat)
    (hb : ∀ y ∈ b, y < 256) (h : CodeInfo.decode b = .ok (x, rest)) :
    b = x.encode [] ++ rest := by
  match b with
  | [] => simp [CodeInfo.decode, consume_u8, bind, Except.bind] at h
  | [a] => simp [CodeInfo.decode, consume_u8, bind, Except.bind] at h
  | [a, a1] => simp [CodeInfo.decode, consume_u8, consume_u16, bind, Except.bind] at h
  | [a, a1, a2] => simp [CodeInfo.decode, consume_u8, consume_u16, bind, Except.bind] at h
  | b0 :: b1 :: b2 :: b3 :: r =>
    rw [decode_cons] at h
    rcases hv : (CodeInfo.mk b0 b1 (b2 * 256 + b3)).validate with e | u
    · rw [hv] at h; cases h
    · rw [hv] at h
      simp only [Except.map, Except.ok.injEq, Prod.mk.injEq] at h
      obtain ⟨hx, hr⟩ := h
      have hb2 : b2 < 256 := hb b2 (by simp)
      have hb3 : b3 < 256 := hb b3 (by simp)
      subst hx hr
      simp [CodeInfo.encode, vec_push, vec_extend_from_slice, u16_to_be_bytes]
      omega

/-- Witness for C9 at the concrete slice `[1, 2, 0, 3]`, which decodes to
the record `⟨1, 2, 3⟩` with empty remainder. -/
theorem C9_decode_then_encode_witness :
    [1, 2, 0, 3] = (CodeInfo.mk 1 2 3).encode [] ++ ([] : List Nat) :=
  C9_decode_then_encode [1, 2, 0, 3] (CodeInfo.mk 1 2 3) [] (by decide) rfl

/-- Claim C10: every `CodeInfo` that passes `validate` has `io_diff` in the
inclusive range `-127` to `128`, and the value `128 - inputs` is attained
exactly by the non-returning records. -/
theorem C10_io_diff_bounds (c : CodeInfo) (h : c.validate = .ok ()) :
    -127 ≤ c.io_diff ∧ c.io_diff ≤ 128 ∧
    (c.io_diff = 128 - (c.inputs : Int) ↔ c.is_non_returning = true) := by
  obtain ⟨h1, h2, h3, h4⟩ := (validate_ok_iff c).mp h
  simp only [CodeInfo.io_diff, wrap32, CodeInfo.is_non_returning,
    EOF_NON_RETURNING_FUNCTION, beq_iff_eq]
  omega

/-- Witness for C10 at the concrete record `⟨0, 0x80, 0⟩`. -/
theorem C10_io_diff_bounds_witness :
    (CodeInfo.mk 0 0x80 0).validate = .ok () ∧
    -127 ≤ (CodeInfo.mk 0 0x80 0).io_diff ∧
    (CodeInfo.mk 0 0x80 0).io_diff ≤ 128 := by
  have hv : (CodeInfo.mk 0 0x80 0).validate = .ok () := by rfl
  have h := C10_io_diff_bounds (CodeInfo.mk 0 0x80 0) hv
  exact ⟨hv, h.1, h.2.1⟩
